import Mathlib

/-!
# Verification of the PickaThon night-shift scheduler core

Shallow embedding of `PickaThon2.py`.  The scheduling engine works on:

* a roster: a Python dict from doctor name to a record with fields
  `excluded_days`, `wanted_days`, `num_shifts` (where `float("inf")` marks an
  unbounded shift count) — modelled as an association list preserving the
  dict's insertion order, with `Option Nat` (`none` = unbounded) for
  `num_shifts`;
* a demand map (`schedule` in the source): a dict from day number to the list
  of doctors wanting that day — modelled as an association list of
  `(day, candidates)` pairs in insertion order; the program always builds it
  with keys `1..N` in ascending order (`generate_initial_schedule`);
* the final schedule: a dict from day `1..N` to an optional doctor — modelled
  positionally as a `List (Option String)` whose index `d-1` is day `d`;
* the shift counter: a dict from doctor name to a count — modelled as a total
  function `String → Nat` (reads of names absent from the dict, which raise
  `KeyError` in Python, are modelled by explicit membership checks against the
  roster's key list, and the whole computation returns `Option`).

`random.choice` in the fill pass is modelled by an arbitrary choice function
`pick : Nat → Nat`: on day `d` with a nonempty eligible list `l` the element
`l[pick d % l.length]` is chosen, so quantifying over `pick` covers every
possible sequence of random draws.
-/

namespace PickaThon

/-- One roster entry: the `excluded_days` / `wanted_days` / `num_shifts`
record built in `main` (`num_shifts = none` models `float("inf")`). -/
structure DoctorInfo where
  excluded_days : List Nat
  wanted_days : List Nat
  num_shifts : Option Nat
  deriving DecidableEq, Repr

/-- A roster: Python dict from doctor name to record, in insertion order. -/
abbrev Roster := List (String × DoctorInfo)

/-- The `public_holidays` table at the top of `PickaThon2.py`: month number to
a list of `"MM-DD"` strings (the strings in the source already carry the
month). -/
def public_holidays : List (Nat × List String) :=
  [(1, ["01-01", "01-06"]),
   (4, ["04-01"]),
   (5, ["05-01", "05-08"]),
   (7, ["07-05"]),
   (8, ["08-29"]),
   (9, ["09-01", "09-15"]),
   (11, ["11-01", "11-17"]),
   (12, ["12-24", "12-25", "12-26"])]

/-- Python's `f"{month:02d}"` zero padding for a month number. -/
def pad2 (n : Nat) : String :=
  if n < 10 then "0" ++ toString n else toString n

/-- `get_public_holidays(year)`: for each table entry it appends
`f"{year}-{month:02d}-{day}"`, where `day` is the stored `"MM-DD"` string. -/
def get_public_holidays (year : Nat) : List String :=
  public_holidays.flatMap (fun p =>
    p.2.map (fun day => toString year ++ "-" ++ pad2 p.1 ++ "-" ++ day))

/-- Sakamoto day-of-week table offsets (used to evaluate
`datetime.weekday()` on a concrete date). -/
def sakamoto_table : List Nat := [0, 3, 2, 5, 0, 3, 5, 1, 4, 6, 2, 4]

/-- Day of week of year-month-day in Python's `datetime.weekday()` convention
(Monday = 0, …, Sunday = 6), via Sakamoto's congruence (`6 * (y / 100)`
replaces the subtraction of `y / 100` modulo 7). -/
def weekday (y m d : Nat) : Nat :=
  let y' := if m < 3 then y - 1 else y
  let h := (y' + y' / 4 + 6 * (y' / 100) + y' / 400 + sakamoto_table.getD (m - 1) 0 + d) % 7
  (h + 6) % 7

/-- Split a character list on a separator character (the character-level
behaviour of `str.split`). -/
def split_on_char (sep : Char) : List Char → List (List Char)
  | [] => [[]]
  | c :: cs =>
    match split_on_char sep cs with
    | [] => if c = sep then [[], []] else [[c]]
    | g :: gs => if c = sep then [] :: g :: gs else (c :: g) :: gs

/-- A nonempty all-digit field read in base 10. -/
def digits_to_nat (cs : List Char) : Option Nat :=
  if cs ≠ [] ∧ cs.all (fun c => c.isDigit) then
    some (cs.foldl (fun acc c => acc * 10 + (c.toNat - 48)) 0)
  else none

/-- `datetime.strptime(date_str, "%Y-%m-%d")` on a well-formed date string:
split on `"-"` and read the three numeric fields; a malformed string (which
makes `strptime` raise) gives `none`. -/
def parse_date (s : String) : Option (Nat × Nat × Nat) :=
  match split_on_char (Char.ofNat 45) s.toList with
  | [ys, ms, ds] =>
    match digits_to_nat ys, digits_to_nat ms, digits_to_nat ds with
    | some y, some m, some d => some (y, m, d)
    | _, _, _ => none
  | _ => none

/-- `is_weekend_or_holiday(date_str, holidays)`: weekday ≥ 5 or literal
membership of the date string in the holiday list; `none` models the
`strptime` exception on a malformed string. -/
def is_weekend_or_holiday (date_str : String) (holidays : List String) : Option Bool :=
  match parse_date date_str with
  | none => none
  | some (y, m, d) => some (weekday y m d ≥ 5 || holidays.contains date_str)

/-- Gregorian leap-year rule (what
`pd.Timestamp(year, month, 1) + MonthEnd(0)` implements for February). -/
def is_leap (y : Nat) : Bool :=
  y % 4 == 0 && (y % 100 != 0 || y % 400 == 0)

/-- Number of days of a month, as computed in `generate_initial_schedule` via
`(pd.Timestamp(year=year, month=month, day=1) + pd.offsets.MonthEnd(0)).day`. -/
def days_in_month (month year : Nat) : Nat :=
  if month = 2 then (if is_leap year then 29 else 28)
  else if month = 4 ∨ month = 6 ∨ month = 9 ∨ month = 11 then 30
  else 31

/-- `validate_days(days, num_days)`: keep the days that are `<= num_days`. -/
def validate_days (days : List Nat) (num_days : Nat) : List Nat :=
  days.filter (fun day => day ≤ num_days)

/-- `generate_initial_schedule(doctors, month, year)`: the demand map
`{day: [doctors...]}` for days `1..N`.  The source loops doctors outermost and
appends each validated wanted day not in that doctor's `excluded_days` to
`schedule[day]`; reading off one day's list gives, in roster order, one copy
of the doctor's name per occurrence of that day in the validated wanted list. -/
def generate_initial_schedule (doctors : Roster) (month year : Nat) :
    List (Nat × List String) :=
  let num_days := days_in_month month year
  (List.range num_days).map (fun i =>
    let day := i + 1
    (day, doctors.flatMap (fun p =>
      (validate_days p.2.wanted_days num_days).filterMap (fun w =>
        if w = day ∧ ¬ (w ∈ p.2.excluded_days) then some p.1 else none))))

/-- `identify_conflicts(schedule)`: the sub-dict of entries whose candidate
list has more than one element. -/
def identify_conflicts (schedule : List (Nat × List String)) :
    List (Nat × List String) :=
  schedule.filter (fun p => decide (1 < p.2.length))

/-- The interpreter state threaded through `finalize_schedule`: the three
inputs (which the Python code only reads) together with the two fresh dicts
`final_schedule` and `doctor_shift_count` it builds. -/
structure FState where
  schedule : List (Nat × List String)
  resolved : List (Nat × String)
  doctors : Roster
  final : List (Option String)
  cnt : String → Nat

/-- `doctor_shift_count[name] += 1`. -/
def bump (cnt : String → Nat) (name : String) : String → Nat :=
  fun x => if x = name then cnt x + 1 else cnt x

/-- The key list of the `doctor_shift_count` dict: the roster's doctor
names, in roster order. -/
def roster_names (doctors : Roster) : List String :=
  doctors.map Prod.fst

/-- One iteration of the seed pass (`for day, assigned_doctors in
schedule.items()`):  a resolved day takes the resolved doctor, a
single-candidate day takes its candidate, any other day gets `None`; each
assignment does `doctor_shift_count[doc] += 1`, which raises `KeyError`
(modelled as `none`) when `doc` is not a roster key. -/
def seed_step (s : FState) (p : Nat × List String) : Option FState :=
  match s.resolved.lookup p.1 with
  | some doc =>
    if roster_names s.doctors |>.contains doc then
      some { s with final := s.final ++ [some doc], cnt := bump s.cnt doc }
    else none
  | none =>
    match p.2 with
    | [doc] =>
      if roster_names s.doctors |>.contains doc then
        some { s with final := s.final ++ [some doc], cnt := bump s.cnt doc }
      else none
    | _ => some { s with final := s.final ++ [none] }

/-- The seed pass: fold `seed_step` over the demand map, starting from the
freshly constructed empty `final_schedule` and all-zero
`doctor_shift_count`. -/
def seed_pass (schedule : List (Nat × List String)) (resolved : List (Nat × String))
    (doctors : Roster) : Option FState :=
  schedule.foldlM seed_step
    { schedule := schedule, resolved := resolved, doctors := doctors,
      final := [], cnt := fun _ => 0 }

/-- The `available_doctors` comprehension of the fill pass at a given day:
doctors whose count is below `num_shifts` (`none` = `float("inf")`, never
limiting), who have not excluded the day, and who are not already assigned to
the neighbouring days (day `d` lives at index `d - 1` of `final`). -/
def available_doctors (s : FState) (day : Nat) : List String :=
  s.doctors.filterMap (fun p =>
    let countOk : Bool :=
      match p.2.num_shifts with
      | none => true
      | some m => decide (s.cnt p.1 < m)
    if countOk
        && ! p.2.excluded_days.contains day
        && (day == 1 || s.final[day - 2]? != some (some p.1))
        && (day == s.final.length || s.final[day]? != some (some p.1))
    then some p.1 else none)

/-- One iteration of the fill pass: on a still-unassigned day, pick an
eligible doctor (if any) with the choice function standing in for
`random.choice`, assign and count the shift. -/
def fill_step (pick : Nat → Nat) (s : FState) (day : Nat) : FState :=
  if s.final[day - 1]? = some none then
    let avail := available_doctors s day
    if avail.isEmpty then s
    else
      let doc := avail.getD (pick day % avail.length) ""
      { s with final := s.final.set (day - 1) (some doc), cnt := bump s.cnt doc }
  else s

/-- One iteration of the cleanup pass: null a day equal to its predecessor. -/
def cleanup_step (s : FState) (day : Nat) : FState :=
  if s.final[day - 1]? = s.final[day - 2]? then
    { s with final := s.final.set (day - 1) none }
  else s

/-- `finalize_schedule(schedule, resolved_schedule, doctors)` as a state
transformer: the seed pass (which can raise `KeyError`), then the fill pass
over `range(1, len(final_schedule) + 1)`, then the cleanup pass over
`range(2, len(final_schedule))` — note the source's upper bound excludes the
last day. -/
def finalize_schedule (schedule : List (Nat × List String))
    (resolved : List (Nat × String)) (doctors : Roster) (pick : Nat → Nat) :
    Option FState :=
  (seed_pass schedule resolved doctors).map (fun s1 =>
    let n := s1.final.length
    let s2 := (List.range' 1 n).foldl (fill_step pick) s1
    (List.range' 2 (n - 2)).foldl cleanup_step s2)

/-- The value `finalize_schedule` returns to its caller: the final-schedule
dict, day `d` at index `d - 1`. -/
def finalize_result (schedule : List (Nat × List String))
    (resolved : List (Nat × String)) (doctors : Roster) (pick : Nat → Nat) :
    Option (List (Option String)) :=
  (finalize_schedule schedule resolved doctors pick).map FState.final

/-! ## Helper lemmas -/

/-- A fold over plain steps preserves any invariant preserved by each step. -/
lemma foldl_inv {α : Type} (f : FState → α → FState) (P : FState → Prop) :
    ∀ (l : List α) (s : FState), (∀ t a, a ∈ l → P t → P (f t a)) → P s →
      P (l.foldl f s) := by
  intro l
  induction l with
  | nil => intro s _ hs; exact hs
  | cons a l ih =>
    intro s hstep hs
    exact ih (f s a) (fun t b hb => hstep t b (List.mem_cons_of_mem _ hb))
      (hstep s a (List.mem_cons_self _ _) hs)

/-- A fallible fold over `seed_step` preserves any invariant preserved by each
successful step. -/
lemma foldlM_inv (P : FState → Prop)
    (hstep : ∀ t p t', seed_step t p = some t' → P t → P t') :
    ∀ (l : List (Nat × List String)) (s s' : FState),
      l.foldlM seed_step s = some s' → P s → P s' := by
  intro l
  induction l with
  | nil =>
    intro s s' h hs
    simp only [List.foldlM_nil, pure, Option.some.injEq] at h
    exact h ▸ hs
  | cons p l ih =>
    intro s s' h hs
    simp only [List.foldlM_cons, bind, Option.bind_eq_some] at h
    obtain ⟨t, h1, h2⟩ := h
    exact ih t s' h2 (hstep s p t h1 hs)

/-- `seed_step` only extends `final` and `cnt`; the three inputs are left
untouched. -/
lemma seed_step_frame {s : FState} {p : Nat × List String} {t : FState}
    (h : seed_step s p = some t) :
    t.schedule = s.schedule ∧ t.resolved = s.resolved ∧ t.doctors = s.doctors := by
  unfold seed_step at h
  split at h
  · split at h
    · cases h; exact ⟨rfl, rfl, rfl⟩
    · cases h
  · split at h
    · split at h
      · cases h; exact ⟨rfl, rfl, rfl⟩
      · cases h
    · cases h; exact ⟨rfl, rfl, rfl⟩

/-- `fill_step` only touches `final` and `cnt`. -/
lemma fill_step_frame (pick : Nat → Nat) (s : FState) (day : Nat) :
    (fill_step pick s day).schedule = s.schedule ∧
    (fill_step pick s day).resolved = s.resolved ∧
    (fill_step pick s day).doctors = s.doctors := by
  unfold fill_step
  split
  · dsimp only
    split
    · exact ⟨rfl, rfl, rfl⟩
    · exact ⟨rfl, rfl, rfl⟩
  · exact ⟨rfl, rfl, rfl⟩

/-- `cleanup_step` only touches `final`. -/
lemma cleanup_step_frame (s : FState) (day : Nat) :
    (cleanup_step s day).schedule = s.schedule ∧
    (cleanup_step s day).resolved = s.resolved ∧
    (cleanup_step s day).doctors = s.doctors ∧
    (cleanup_step s day).cnt = s.cnt := by
  unfold cleanup_step
  split
  · exact ⟨rfl, rfl, rfl, rfl⟩
  · exact ⟨rfl, rfl, rfl, rfl⟩

/-- Setting an entry to `none` cannot increase the number of occurrences of
an assigned doctor. -/
lemma count_set_none_le (l : List (Option String)) (i : Nat) (x : String) :
    (l.set i none).count (some x) ≤ l.count (some x) := by
  induction l generalizing i with
  | nil => simp
  | cons a l ih =>
    cases i with
    | zero =>
      simp only [List.set, List.count_cons]
      split <;> simp_all
    | succ i =>
      simp only [List.set, List.count_cons]
      have := ih i
      omega

/-- Overwriting a `none` entry with `some d` adds exactly the occurrences of
`d` contributed by that entry. -/
lemma count_set_some (l : List (Option String)) (i : Nat) (d x : String)
    (h : l[i]? = some none) :
    (l.set i (some d)).count (some x)
      = l.count (some x) + (if d = x then 1 else 0) := by
  induction l generalizing i with
  | nil => simp at h
  | cons a l ih =>
    cases i with
    | zero =>
      simp only [List.getElem?_cons_zero, Option.some.injEq] at h
      subst h
      simp only [List.set, List.count_cons]
      split <;> simp_all
    | succ i =>
      simp only [List.getElem?_cons_succ] at h
      simp only [List.set, List.count_cons]
      rw [ih i h]
      omega

/-- In a roster whose keys are distinct (always the case for a Python dict),
a name determines its record. -/
lemma roster_key_unique {doctors : Roster} {a : String} {b c : DoctorInfo}
    (hnd : (roster_names doctors).Nodup)
    (h1 : (a, b) ∈ doctors) (h2 : (a, c) ∈ doctors) : b = c := by
  induction doctors with
  | nil => cases h1
  | cons p l ih =>
    simp only [roster_names, List.map_cons, List.nodup_cons] at hnd
    rcases List.mem_cons.mp h1 with h1 | h1 <;>
      rcases List.mem_cons.mp h2 with h2 | h2
    · have h := h1.trans h2.symm
      simp only [Prod.mk.injEq] at h
      exact h.2
    · exfalso
      apply hnd.1
      have ha : p.1 = a := by rw [← h1]
      rw [ha]
      exact List.mem_map_of_mem Prod.fst h2
    · exfalso
      apply hnd.1
      have ha : p.1 = a := by rw [← h2]
      rw [ha]
      exact List.mem_map_of_mem Prod.fst h1
    · exact ih hnd.2 h1 h2

/-- The element `random.choice` returns is a member of the candidate list. -/
lemma getD_mod_mem {l : List String} (h : l ≠ []) (k : Nat) :
    l.getD (k % l.length) "" ∈ l := by
  have hlen : 0 < l.length := List.length_pos.mpr h
  have hidx : k % l.length < l.length := Nat.mod_lt _ hlen
  rw [List.getD_eq_getElem?_getD, List.getElem?_eq_getElem hidx]
  exact List.getElem_mem hidx

/-- Along the seed pass, the shift counter of each doctor equals the number
of days currently assigned to that doctor. -/
lemma seed_step_tracks (name : String) {s : FState} {p : Nat × List String}
    {t : FState} (h : seed_step s p = some t)
    (ht : s.cnt name = s.final.count (some name)) :
    t.cnt name = t.final.count (some name) := by
  unfold seed_step at h
  have hsome : ∀ doc : String,
      (bump s.cnt doc) name = (s.final ++ [some doc]).count (some name) := by
    intro doc
    simp only [bump, List.count_append, List.count_cons, List.count_nil]
    by_cases hd : name = doc
    · subst hd; simp [ht]
    · have : ¬ ((some name : Option String) == some doc) = true := by
        simp [hd]
      simp [hd, ht]
      intro hc
      exact absurd hc.symm hd
  split at h
  · split at h
    · cases h; exact hsome _
    · cases h
  · split at h
    · split at h
      · cases h; exact hsome _
      · cases h
    · cases h
      simp [List.count_append, ht]

/-- The fill pass also keeps the counter in sync with the assignment counts. -/
lemma fill_step_tracks (pick : Nat → Nat) (name : String) (s : FState) (day : Nat)
    (ht : s.cnt name = s.final.count (some name)) :
    (fill_step pick s day).cnt name = (fill_step pick s day).final.count (some name) := by
  unfold fill_step
  split
  · dsimp only
    split
    · exact ht
    · case _ hnone _ =>
      simp only [bump]
      rw [count_set_some _ _ _ _ hnone]
      by_cases hd : name = (available_doctors s day).getD (pick day % (available_doctors s day).length) ""
      · rw [if_pos hd, if_pos hd.symm, ht]
      · rw [if_neg hd, if_neg (fun hc => hd hc.symm), ht]
        omega
  · exact ht

/-- The cleanup pass can only lower assignment counts. -/
lemma cleanup_step_count_le (s : FState) (day : Nat) (name : String) :
    (cleanup_step s day).final.count (some name) ≤ s.final.count (some name) := by
  unfold cleanup_step
  split
  · exact count_set_none_le _ _ _
  · exact Nat.le_refl _

/-- The fill pass never overwrites a day that is already assigned. -/
lemma fill_step_preserves_assigned (pick : Nat → Nat) (s : FState) (day i : Nat)
    (d : String) (h : s.final[i]? = some (some d)) :
    (fill_step pick s day).final[i]? = some (some d) := by
  unfold fill_step
  split
  · case _ hnone =>
    dsimp only
    split
    · exact h
    · by_cases hij : day - 1 = i
      · rw [hij] at hnone
        rw [hnone] at h
        cases h
      · simpa [List.getElem?_set_ne hij] using h
  · exact h

/-- Folded version of `fill_step_preserves_assigned`. -/
lemma foldl_fill_preserves_assigned (pick : Nat → Nat) (l : List Nat)
    (s : FState) (i : Nat) (d : String) (h : s.final[i]? = some (some d)) :
    (l.foldl (fill_step pick) s).final[i]? = some (some d) := by
  induction l generalizing s with
  | nil => exact h
  | cons a l ih => exact ih _ (fill_step_preserves_assigned pick s a i d h)

/-- The cleanup pass leaves untouched every index it never writes. -/
lemma foldl_cleanup_preserves (l : List Nat) (s : FState) (i : Nat)
    (h : ∀ day ∈ l, day - 1 ≠ i) :
    (l.foldl cleanup_step s).final[i]? = s.final[i]? := by
  induction l generalizing s with
  | nil => rfl
  | cons a l ih =>
    rw [List.foldl_cons, ih _ (fun day hd => h day (List.mem_cons_of_mem _ hd))]
    unfold cleanup_step
    split
    · exact List.getElem?_set_ne (h a (List.mem_cons_self _ _))
    · rfl

/-- A doctor appearing in `available_doctors` has a roster entry whose
capacity check passed against the current counter. -/
lemma available_countOk {s : FState} {day : Nat} {doc : String}
    (h : doc ∈ available_doctors s day) :
    ∃ info : DoctorInfo, (doc, info) ∈ s.doctors ∧
      (∀ m, info.num_shifts = some m → s.cnt doc < m) := by
  unfold available_doctors at h
  obtain ⟨p, hp, hif⟩ := List.mem_filterMap.mp h
  dsimp only at hif
  split at hif
  · case _ hcond =>
    cases hif
    refine ⟨p.2, hp, ?_⟩
    intro m hm
    simp only [Bool.and_eq_true] at hcond
    have hok := hcond.1.1.1
    rw [hm] at hok
    exact of_decide_eq_true hok
  · cases hif

/-- In the fill pass a doctor with a bounded `num_shifts` is only ever chosen
while strictly below the bound, so the counter never passes
`max (starting count) (the bound)`. -/
lemma fill_step_bound (pick : Nat → Nat) (doctors : Roster) (name : String)
    (info : DoctorInfo) (m c0 : Nat)
    (hnd : (roster_names doctors).Nodup) (hdoc : (name, info) ∈ doctors)
    (hm : info.num_shifts = some m) (s : FState) (day : Nat)
    (hd : s.doctors = doctors) (hb : s.cnt name ≤ max c0 m) :
    (fill_step pick s day).cnt name ≤ max c0 m := by
  unfold fill_step
  split
  · dsimp only
    split
    · exact hb
    · case _ hne =>
      simp only [bump]
      by_cases hpick : name = (available_doctors s day).getD (pick day % (available_doctors s day).length) ""
      · rw [if_pos hpick]
        have hmem : (available_doctors s day).getD (pick day % (available_doctors s day).length) "" ∈ available_doctors s day :=
          getD_mod_mem (by simpa using hne) _
        rw [← hpick] at hmem
        obtain ⟨info2, hin, hlt⟩ := available_countOk hmem
        rw [hd] at hin
        have : info2 = info := roster_key_unique hnd hin hdoc
        subst this
        have := hlt m hm
        omega
      · rw [if_neg hpick]
        exact hb
  · exact hb

/-- If some day of the demand map is resolved to a doctor that is not a
roster key, the seed pass raises `KeyError` (returns `none`), whatever state
it reaches that day with. -/
lemma seed_unknown_doctor_none (resolved : List (Nat × String)) (doctors : Roster)
    (day : Nat) (cands : List String) (doc : String)
    (hres : resolved.lookup day = some doc)
    (hdoc : ¬ doc ∈ roster_names doctors) :
    ∀ (l : List (Nat × List String)) (s : FState),
      s.resolved = resolved → s.doctors = doctors → (day, cands) ∈ l →
      l.foldlM seed_step s = none := by
  intro l
  induction l with
  | nil =>
    intro s _ _ hmem
    cases hmem
  | cons p l ih =>
    intro s h1 h2 hmem
    simp only [List.foldlM_cons, bind]
    rcases List.mem_cons.mp hmem with hp | hp
    · have hstep : seed_step s p = none := by
        unfold seed_step
        rw [← hp, h1, hres]
        have : (roster_names s.doctors).contains doc = false := by
          rw [h2]
          simpa using hdoc
        simp only [this]
        rfl
      rw [hstep]
      rfl
    · cases hstep : seed_step s p with
      | none => rfl
      | some t =>
        obtain ⟨-, hr, hdocs⟩ := seed_step_frame hstep
        exact ih t (hr.trans h1) (hdocs.trans h2) hp

/-! ## Claim theorems -/

/-- C7: evaluation of `get_public_holidays 2025`.  Every produced string
carries the month component twice (the table's day entries already contain
the month and the format string prepends it again), so the elements are 13
characters long instead of the 10 of a `YYYY-MM-DD` date. -/
theorem holiday_strings_malformed :
    get_public_holidays 2025 =
      ["2025-01-01-01", "2025-01-01-06", "2025-04-04-01", "2025-05-05-01",
       "2025-05-05-08", "2025-07-07-05", "2025-08-08-29", "2025-09-09-01",
       "2025-09-09-15", "2025-11-11-01", "2025-11-11-17", "2025-12-12-24",
       "2025-12-12-25", "2025-12-12-26"] ∧
    "2025-01-01-01" ∈ get_public_holidays 2025 ∧
    ¬ ("2025-01-01-01".length = 10) := by
  refine ⟨rfl, by decide, by decide⟩

/-- C3: evaluating the code at the claimed input:
`is_weekend_or_holiday "2025-01-01" (get_public_holidays 2025)` returns
`false`, not `true` — the holiday list contains `"2025-01-01-01"` rather than
`"2025-01-01"`, and 2025-01-01 is a Wednesday (`weekday = 2 < 5`). -/
theorem newyear_not_detected :
    is_weekend_or_holiday "2025-01-01" (get_public_holidays 2025) = some false ∧
    weekday 2025 1 1 = 2 := by
  constructor
  · rfl
  · rfl

/-- C2: evaluating the code at the failing input: with one doctor wanting
days 1 and 2 of a 2-day demand map, both days are seeded to that doctor, and
the cleanup loop `range(2, len(final_schedule))` stops before the last day, so
the returned schedule assigns "A" to the consecutive days 1 and 2 — for every
random choice sequence. -/
theorem cleanup_skips_last_day : ∀ pick : Nat → Nat,
    finalize_result [(1, ["A"]), (2, ["A"])] []
      [("A", ⟨[], [1, 2], none⟩)] pick = some [some "A", some "A"] := by
  intro pick
  rfl

/-- C5: the worked example: roster `{A: wanted=[1,2], excluded=[], maxShifts=1}`,
demand `{1:[A], 2:[A], 3:[]}`, empty resolution map: the seed pass assigns
both day 1 and day 2 to A (it checks no maxShifts), the fill pass leaves day 3
unassigned, and the cleanup pass nulls day 2, so finalize returns
`{1: A, 2: None, 3: None}` — for every random choice sequence. -/
theorem seed_then_cleanup_example : ∀ pick : Nat → Nat,
    (seed_pass [(1, ["A"]), (2, ["A"]), (3, [])] []
        [("A", ⟨[], [1, 2], some 1⟩)]).map FState.final
      = some [some "A", some "A", none] ∧
    finalize_result [(1, ["A"]), (2, ["A"]), (3, [])] []
      [("A", ⟨[], [1, 2], some 1⟩)] pick = some [some "A", none, none] := by
  intro pick
  exact ⟨rfl, rfl⟩

/-- C8: `identify_conflicts` is a pure filter: its output is a sublist of the
demand map, an entry is in the output exactly when it is a demand-map entry
with more than one candidate, and — the embedding being a pure function of its
input — a repeated call returns the identical output. -/
theorem identify_conflicts_pure_filter (demandMap : List (Nat × List String)) :
    List.Sublist (identify_conflicts demandMap) demandMap ∧
    (∀ p : Nat × List String,
      p ∈ identify_conflicts demandMap ↔ p ∈ demandMap ∧ 1 < p.2.length) ∧
    identify_conflicts demandMap = identify_conflicts demandMap := by
  refine ⟨List.filter_sublist _, ?_, rfl⟩
  intro p
  simp [identify_conflicts]

/-- C1 counterexample: with roster `{A: wanted=[1,3], excluded=[], maxShifts=1}`
and demand `{1:[A], 2:[], 3:[A]}`, the seed pass assigns A to both single-
candidate days without any maxShifts check, so the returned schedule gives A
two days although maxShifts is 1. -/
theorem seed_pass_ignores_maxShifts :
    finalize_result [(1, ["A"]), (2, []), (3, ["A"])] []
      [("A", ⟨[], [1, 3], some 1⟩)] (fun _ => 0)
        = some [some "A", none, some "A"] ∧
    ¬ ([some "A", none, some "A"].count (some "A") ≤ 1) := by
  exact ⟨rfl, by decide⟩

/-- C4: for every roster (with distinct doctor names, as in a Python dict),
month and year, no day list of the demand map built by
`generate_initial_schedule` contains a doctor for whom that day is excluded:
the excluded-day check is applied to every appended wanted day, so exclusion
wins even when a day is both wanted and excluded. -/
theorem demand_respects_excluded_days (doctors : Roster) (month year : Nat)
    (day : Nat) (cands : List String) (name : String) (info : DoctorInfo)
    (hnd : (roster_names doctors).Nodup)
    (hdoc : (name, info) ∈ doctors)
    (hday : (day, cands) ∈ generate_initial_schedule doctors month year)
    (hname : name ∈ cands) :
    ¬ (day ∈ info.excluded_days) := by
  unfold generate_initial_schedule at hday
  obtain ⟨i, -, hpair⟩ := List.mem_map.mp hday
  obtain ⟨hd, hc⟩ := Prod.mk.injEq _ _ _ _ ▸ hpair
  subst hc
  obtain ⟨p, hp, hin⟩ := List.mem_flatMap.mp hname
  obtain ⟨w, -, hw⟩ := List.mem_filterMap.mp hin
  split at hw
  · case _ hcond =>
    cases hw
    rw [← hd, ← hcond.1]
    have : p.2 = info := roster_key_unique hnd hp hdoc
    rw [← this]
    exact hcond.2
  · cases hw

/-- C4 witness: a concrete instance — doctor "A" wanting day 1 with day 2
excluded, February 2025; day 1 of the demand map lists "A", and indeed
1 is not among A's excluded days. -/
theorem demand_respects_excluded_days_witness :
    ¬ ((1 : Nat) ∈ ([2] : List Nat)) :=
  demand_respects_excluded_days [("A", ⟨[2], [1], none⟩)] 2 2025 1 ["A"] "A"
    ⟨[2], [1], none⟩ (by decide) (by decide) (by decide) (by decide)

/-- C10: if the resolution map sends some day of the demand map to a doctor
that is not a key of the roster, `finalize_schedule` raises (`KeyError` at
`doctor_shift_count[resolved_schedule[day]] += 1`, modelled as `none`) instead
of returning a schedule. -/
theorem finalize_unknown_resolution_errors (schedule : List (Nat × List String))
    (resolved : List (Nat × String)) (doctors : Roster) (pick : Nat → Nat)
    (day : Nat) (cands : List String) (doc : String)
    (hmem : (day, cands) ∈ schedule)
    (hres : resolved.lookup day = some doc)
    (hdoc : ¬ doc ∈ roster_names doctors) :
    finalize_schedule schedule resolved doctors pick = none := by
  unfold finalize_schedule
  have : seed_pass schedule resolved doctors = none := by
    unfold seed_pass
    exact seed_unknown_doctor_none resolved doctors day cands doc hres hdoc
      schedule _ rfl rfl hmem
  rw [this]
  rfl

/-- C10 witness: resolving day 1 to the unknown doctor "Z" makes finalize
fail on the demand map `{1: ["A"]}` with roster `{A}`. -/
theorem finalize_unknown_resolution_errors_witness :
    finalize_schedule [(1, ["A"])] [(1, "Z")] [("A", ⟨[], [1], none⟩)]
      (fun _ => 0) = none :=
  finalize_unknown_resolution_errors [(1, ["A"])] [(1, "Z")]
    [("A", ⟨[], [1], none⟩)] (fun _ => 0) 1 ["A"] "Z" (by decide) rfl (by decide)

/-- C9: `finalize_schedule` never mutates its inputs: every state it can
return carries the demand map, resolution map and roster it started from
unchanged (the passes only rebuild the fresh `final` and `cnt` components). -/
theorem finalize_preserves_inputs (schedule : List (Nat × List String))
    (resolved : List (Nat × String)) (doctors : Roster) (pick : Nat → Nat)
    (s : FState) (h : finalize_schedule schedule resolved doctors pick = some s) :
    s.schedule = schedule ∧ s.resolved = resolved ∧ s.doctors = doctors := by
  unfold finalize_schedule at h
  rw [Option.map_eq_some'] at h
  obtain ⟨s1, hseed, hs⟩ := h
  have h1 : s1.schedule = schedule ∧ s1.resolved = resolved ∧ s1.doctors = doctors := by
    apply foldlM_inv
      (P := fun t => t.schedule = schedule ∧ t.resolved = resolved ∧ t.doctors = doctors)
      (fun t p t' hstep ht => by
        obtain ⟨ha, hb, hc⟩ := seed_step_frame hstep
        exact ⟨ha.trans ht.1, hb.trans ht.2.1, hc.trans ht.2.2⟩)
      schedule _ s1 hseed ⟨rfl, rfl, rfl⟩
  subst hs
  have h2 := foldl_inv (fill_step pick)
    (fun t => t.schedule = schedule ∧ t.resolved = resolved ∧ t.doctors = doctors)
    (List.range' 1 s1.final.length) s1
    (fun t a _ ht => by
      obtain ⟨ha, hb, hc⟩ := fill_step_frame pick t a
      exact ⟨ha.trans ht.1, hb.trans ht.2.1, hc.trans ht.2.2⟩) h1
  exact foldl_inv cleanup_step
    (fun t => t.schedule = schedule ∧ t.resolved = resolved ∧ t.doctors = doctors)
    (List.range' 2 (s1.final.length - 2)) _
    (fun t a _ ht => by
      obtain ⟨ha, hb, hc, -⟩ := cleanup_step_frame t a
      exact ⟨ha.trans ht.1, hb.trans ht.2.1, hc.trans ht.2.2⟩) h2

/-- C9 witness: on the empty inputs finalize returns its start state, whose
input components are the given (empty) inputs. -/
theorem finalize_preserves_inputs_witness :
    ({ schedule := [], resolved := [], doctors := [], final := [],
       cnt := fun _ => 0 } : FState).schedule = ([] : List (Nat × List String)) ∧
    ({ schedule := [], resolved := [], doctors := [], final := [],
       cnt := fun _ => 0 } : FState).resolved = ([] : List (Nat × String)) ∧
    ({ schedule := [], resolved := [], doctors := [], final := [],
       cnt := fun _ => 0 } : FState).doctors = ([] : Roster) :=
  finalize_preserves_inputs [] [] [] (fun _ => 0) _ rfl

/-- A day seeded at the last position of the schedule survives finalize: the
fill pass never overwrites an assigned day, and the cleanup loop
`range(2, len(final_schedule))` stops before the last day. -/
lemma finalize_keeps_assigned_last (schedule : List (Nat × List String))
    (resolved : List (Nat × String)) (doctors : Roster) (pick : Nat → Nat)
    (s1 : FState) (d : String)
    (hseed : seed_pass schedule resolved doctors = some s1)
    (hlast : s1.final[s1.final.length - 1]? = some (some d)) :
    ∃ f : List (Option String),
      finalize_result schedule resolved doctors pick = some f ∧
      f[s1.final.length - 1]? = some (some d) := by
  unfold finalize_result finalize_schedule
  rw [hseed]
  simp only [Option.map_some']
  refine ⟨_, rfl, ?_⟩
  show ((List.range' 2 (s1.final.length - 2)).foldl cleanup_step
      ((List.range' 1 s1.final.length).foldl (fill_step pick) s1)).final[s1.final.length - 1]?
    = some (some d)
  have hfill := foldl_fill_preserves_assigned pick (List.range' 1 s1.final.length)
    s1 (s1.final.length - 1) d hlast
  have hdays : ∀ day ∈ List.range' 2 (s1.final.length - 2),
      day - 1 ≠ s1.final.length - 1 := by
    intro day hday
    obtain ⟨i, hi, hd⟩ := List.mem_range'.mp hday
    omega
  rw [foldl_cleanup_preserves _ _ _ hdays]
  exact hfill

/-- C6: with roster `{A: wanted=[5], maxShifts unbounded; B: wanted=[5],
maxShifts unbounded}` and a demand map whose only multi-candidate day is day 5
with `[A, B]`, `identify_conflicts` reports exactly day 5 with `[A, B]`, and
`finalize_schedule` given the resolution `{5: B}` assigns day 5 to B in its
returned schedule for every random choice sequence of the fill pass. -/
theorem conflict_resolution_honored : ∀ pick : Nat → Nat,
    identify_conflicts [(1, []), (2, []), (3, []), (4, []), (5, ["A", "B"])]
        = [(5, ["A", "B"])] ∧
    ∃ f : List (Option String),
      finalize_result [(1, []), (2, []), (3, []), (4, []), (5, ["A", "B"])]
          [(5, "B")] [("A", ⟨[], [5], none⟩), ("B", ⟨[], [5], none⟩)] pick
        = some f ∧ f[4]? = some (some "B") := by
  intro pick
  refine ⟨rfl, ?_⟩
  have hseed : seed_pass [(1, []), (2, []), (3, []), (4, []), (5, ["A", "B"])]
      [(5, "B")] [("A", ⟨[], [5], none⟩), ("B", ⟨[], [5], none⟩)]
      = some { schedule := [(1, []), (2, []), (3, []), (4, []), (5, ["A", "B"])],
               resolved := [(5, "B")],
               doctors := [("A", ⟨[], [5], none⟩), ("B", ⟨[], [5], none⟩)],
               final := [none, none, none, none, some "B"],
               cnt := bump (fun _ => 0) "B" } := rfl
  obtain ⟨f, hf, hf4⟩ := finalize_keeps_assigned_last _ _ _ pick _ "B" hseed (by rfl)
  exact ⟨f, hf, by simpa using hf4⟩

/-- C1 amended: in the schedule finalize returns, a doctor with bounded
maxShifts `m` is assigned at most `max k m` days, where `k` is the count the
seed pass alone gave that doctor: the fill pass only ever picks a doctor
whose counter is strictly below `m`, and the cleanup pass only removes
assignments — but the seed pass itself performs no maxShifts check, so `k`
may already exceed `m` (the roster is assumed to have distinct doctor names,
as any Python dict has). -/
theorem finalize_maxShifts_bound (schedule : List (Nat × List String))
    (resolved : List (Nat × String)) (doctors : Roster) (pick : Nat → Nat)
    (name : String) (info : DoctorInfo) (m : Nat) (s1 s : FState)
    (hnd : (roster_names doctors).Nodup)
    (hdoc : (name, info) ∈ doctors)
    (hm : info.num_shifts = some m)
    (hseed : seed_pass schedule resolved doctors = some s1)
    (hfin : finalize_schedule schedule resolved doctors pick = some s) :
    s.final.count (some name) ≤ max (s1.cnt name) m := by
  unfold finalize_schedule at hfin
  rw [hseed, Option.map_some', Option.some.injEq] at hfin
  subst hfin
  show ((List.range' 2 (s1.final.length - 2)).foldl cleanup_step
      ((List.range' 1 s1.final.length).foldl (fill_step pick) s1)).final.count (some name)
    ≤ max (s1.cnt name) m
  unfold seed_pass at hseed
  have hdocs1 : s1.doctors = doctors :=
    foldlM_inv (fun t => t.doctors = doctors)
      (fun t p t' h ht => (seed_step_frame h).2.2.trans ht)
      schedule _ s1 hseed rfl
  have htr1 : s1.cnt name = s1.final.count (some name) :=
    foldlM_inv (fun t => t.cnt name = t.final.count (some name))
      (fun t p t' h ht => seed_step_tracks name h ht)
      schedule _ s1 hseed (by simp)
  have h2 := foldl_inv (fill_step pick)
    (fun t => t.doctors = doctors ∧ t.cnt name ≤ max (s1.cnt name) m)
    (List.range' 1 s1.final.length) s1
    (fun t a _ ht =>
      ⟨(fill_step_frame pick t a).2.2.trans ht.1,
       fill_step_bound pick doctors name info m (s1.cnt name) hnd hdoc hm t a
         ht.1 ht.2⟩)
    ⟨hdocs1, Nat.le_max_left _ _⟩
  have htr2 := foldl_inv (fill_step pick)
    (fun t => t.cnt name = t.final.count (some name))
    (List.range' 1 s1.final.length) s1
    (fun t a _ ht => fill_step_tracks pick name t a ht) htr1
  have h3 := foldl_inv cleanup_step
    (fun t => t.final.count (some name)
      ≤ ((List.range' 1 s1.final.length).foldl (fill_step pick) s1).final.count (some name))
    (List.range' 2 (s1.final.length - 2)) _
    (fun t a _ ht => Nat.le_trans (cleanup_step_count_le t a name) ht)
    (Nat.le_refl _)
  omega

/-- C1 witness: with roster `{A: maxShifts=2, wanted=[1]}` and demand
`{1:[A]}`, the single assigned day respects the bound
`max (seed count of A) 2`. -/
theorem finalize_maxShifts_bound_witness :
    ([some "A"] : List (Option String)).count (some "A")
      ≤ max ((bump (fun _ => 0) "A") "A") 2 :=
  finalize_maxShifts_bound [(1, ["A"])] [] [("A", ⟨[], [1], some 2⟩)]
    (fun _ => 0) "A" ⟨[], [1], some 2⟩ 2
    { schedule := [(1, ["A"])], resolved := [],
      doctors := [("A", ⟨[], [1], some 2⟩)],
      final := [some "A"], cnt := bump (fun _ => 0) "A" }
    { schedule := [(1, ["A"])], resolved := [],
      doctors := [("A", ⟨[], [1], some 2⟩)],
      final := [some "A"], cnt := bump (fun _ => 0) "A" }
    (by decide) (by decide) rfl rfl rfl

end PickaThon
